import Mathlib

set_option autoImplicit false

/-!
Shallow embedding of the YeoLab/qtools repository (Python 2 semantics:
`str.split`, `str.strip`, `str.rstrip`, `str.replace`, integer `/` as floor
division, `dict.iteritems`).

Python strings are modelled as `List Char`.  A `Line` is one physical line of
a generated or parsed file, stored WITHOUT its trailing newline character; a
file is a `List Line`.  Every `sh_file.write("...\n")` in the source appends
the payload's lines to the file model.  Python's `for line in f` yields each
line WITH its trailing `'\n'`; since our lines drop that newline, the parser's
`strip('""\n')` is modelled as stripping the character set {'"', '\n'} from a
newline-free line, which computes the same value.
-/

namespace QTools

abbrev Line := List Char

/-- Python `str(n)` for a nonnegative integer. -/
def natLine (n : Nat) : Line := (toString n).toList

/-- Prepend a character to the first field of a split result. -/
def consHead (x : Char) : List (List Char) → List (List Char)
  | [] => [[x]]
  | y :: ys => (x :: y) :: ys

/-- Python 2 `str.split(c)` for a single-character separator `c`:
splits on EVERY occurrence of `c` (source: `parser.py` line 31 uses
`line.split('=')`, which splits on all `'='`, not only the first). -/
def splitOnChar (c : Char) : List Char → List (List Char)
  | [] => [[]]
  | x :: xs =>
    if x = c then [] :: splitOnChar c xs
    else consHead x (splitOnChar c xs)

/-- The maximal run of decimal digits at the head of the list, and the rest. -/
def leadDigits : List Char → List Char × List Char
  | [] => ([], [])
  | c :: cs =>
    if c.isDigit then
      let p := leadDigits cs
      (c :: p.1, p.2)
    else ([], c :: cs)

/-- Numeric value of a digit string, as Python `int` on a decimal string. -/
def digitsToNat (ds : List Char) : Nat :=
  ds.foldl (fun a c => 10 * a + (c.toNat - 48)) 0

/-- Does `re.search('\[(\d+)\]', ...)` match at this exact position:
a `'['`, then one or more digits, then `']'`?  Returns the integer value of
the digit group.  (`\d+` is greedy; backtracking to fewer digits can never
help because the character after the shortened group would be a digit, not
`']'`, so this backtracking-free model is exact.) -/
def bracketNumAt (l : List Char) : Option Nat :=
  match l with
  | '[' :: rest =>
    match leadDigits rest with
    | ([], _) => none
    | (ds, ']' :: _) => some (digitsToNat ds)
    | (_, _) => none
  | _ => none

/-- Python `re.search('\[(\d+)\]', s)`: first match anywhere in the string
(source: `parser.py` line 34). -/
def searchBracketNum : List Char → Option Nat
  | [] => none
  | c :: cs =>
    match bracketNumAt (c :: cs) with
    | some n => some n
    | none => searchBracketNum cs

/-- Python `str.strip(set)`: remove characters of `set` from both ends. -/
def pythonStrip (p : Char → Bool) (l : List Char) : List Char :=
  ((l.dropWhile p).reverse.dropWhile p).reverse

/-- The strip set of `right.strip('""\n')` (source: `parser.py` line 39):
the characters `'"'` and `'\n'` (the doubled quote is one set element). -/
def stripSet (c : Char) : Bool := c = '\"' || c = '\n'

/-- An element of the list built by `commands_from_sh`.  Python mixes
integers (the `list(range(501))` placeholders) and strings (parsed
commands) in one list. -/
inductive Entry where
  | num (n : Nat)
  | cmd (s : Line)
deriving DecidableEq

/-- `commands = list(range(501))` (source: `parser.py` line 26). -/
def initialCommands : List Entry := (List.range 501).map Entry.num

/-- Python exception classes raised by the modelled code. -/
inductive PyError where
  | valueError
  | typeError
  | attributeError
  | indexError
  | zeroDivisionError
deriving DecidableEq

/-- The body of the `for line in f` loop of `commands_from_sh`
(source: `parser.py` lines 30-41), acting on the accumulated list:
if the line starts with `"cmd"`, `left, right = line.split('=')` (a
`ValueError` unless the split has exactly two parts), then
`re.search('\[(\d+)\]', left)` (an `AttributeError` on `.groups()` when there
is no match), then `commands[index] = right.strip('""\n')` (an `IndexError`
when the index exceeds 500). -/
def processLine (commands : List Entry) (line : Line) : Except PyError (List Entry) :=
  if "cmd".toList.isPrefixOf line then
    match splitOnChar '=' line with
    | [left, right] =>
      match searchBracketNum left with
      | none => .error .attributeError
      | some index =>
        if index < commands.length then
          .ok (commands.set index (.cmd (pythonStrip stripSet right)))
        else .error .indexError
    | _ => .error .valueError
  else .ok commands

/-- `commands_from_sh` (source: `parser.py` lines 5-42), over the file's
list of lines. -/
def commands_from_sh (file : List Line) : Except PyError (List Entry) :=
  file.foldlM processLine initialCommands

/-- The index a line would assign, if any: the line starts with `"cmd"`,
splits on `'='` into exactly two parts, and the left part holds a bracketed
integer.  Used to state which indices of the result a file touches. -/
def lineIndex (line : Line) : Option Nat :=
  if "cmd".toList.isPrefixOf line then
    match splitOnChar '=' line with
    | [left, _] => searchBracketNum left
    | _ => none
  else none

/-! ## Submitter (`submitter.py`) -/

/-- `MAX_ARRAY_JOBS = 500` (source: `submitter.py` line 17). -/
def MAX_ARRAY_JOBS : Nat := 500

/-- `("oolite" in HOSTNAME) or ("compute" in HOSTNAME)` (substring tests). -/
def hostSge (hostname : Line) : Bool :=
  decide ("oolite".toList <:+: hostname) || decide ("compute".toList <:+: hostname)

/-- `'tscc' in HOSTNAME`. -/
def hostTscc (hostname : Line) : Bool :=
  decide ("tscc".toList <:+: hostname)

/-- The `queue_type` property (source: `submitter.py` lines 159-170): the
user-supplied value when it is not `None`, otherwise hostname matching;
Python returns `None` (modelled `none`) when nothing matches. -/
def resolve_queue_type (user : Option String) (hostname : Line) : Option String :=
  match user with
  | some q => some q
  | none =>
    if hostSge hostname then some "SGE"
    else if hostTscc hostname then some "PBS"
    else none

/-- The default of the `queue_type` parameter in the `__init__` signature
(source: `submitter.py` line 25): the string `'PBS'`, not `None`. -/
def default_queue_type : Option String := some "PBS"

/-- The `array` property (source: `submitter.py` lines 148-157), resolved the
same way as `queue_type`. -/
def resolve_array (user : Option Bool) (hostname : Line) : Option Bool :=
  match user with
  | some b => some b
  | none =>
    if hostSge hostname then some true
    else if hostTscc hostname then some false
    else none

/-- Python truthiness of `True`/`False`/`None`, as used in `if self.array:`. -/
def truthy : Option Bool → Bool
  | some b => b
  | none => false

/-- Modelled from the spec, for comparison in the dialect-selection claim:
"chosen by matching substrings in the local hostname against known cluster
name fragments" with 'oolite'/'compute' giving SGE, 'tscc' giving PBS, and
an unmatched hostname giving an indeterminate dialect. -/
def hostname_dialect (hostname : Line) : Option String :=
  if hostSge hostname then some "SGE"
  else if hostTscc hostname then some "PBS"
  else none

/-- The `queue_param_prefix` property (source: `submitter.py` lines 180-185);
Python returns `None` for any other dialect. -/
def queue_param_pfx (qt : Option String) : Option String :=
  if qt = some "PBS" then some "#PBS"
  else if qt = some "SGE" then some "#$"
  else none

/-- The `array_job_identifier` property (source: `submitter.py` lines
187-192). -/
def array_job_identifier (qt : Option String) : Option String :=
  if qt = some "PBS" then some "$PBS_ARRAYID"
  else if qt = some "SGE" then some "$SGE_TASK_ID"
  else none

/-- Python 2 `"%s" % x` where `x` is a string or `None`: `None` renders as
the four characters `None`. -/
def pyFormatOpt : Option String → Line
  | some s => s.toList
  | none => "None".toList

/-- The submitter's state after `__init__` has assigned its fields.
`additional_resources` models the `defaultdict(list)` as an association
list in key-insertion order; each key's value list is in append order,
exactly as in Python.  (CPython 2 iterates dict keys in hash order; no
theorem below depends on the relative order of distinct keys.)
`arr` stores the truthiness of the resolved `array` property.  Field order:
additional_resources, commands, job_name, qtype, arr, nodes, ppn, walltime,
queue, account, sh_filename, out_filename, err_filename, max_running. -/
structure Submitter where
  additional_resources : List (Line × List Line)
  commands : List Line
  job_name : Line
  qtype : Option String
  arr : Bool
  nodes : Nat
  ppn : Nat
  walltime : Line
  queue : Line
  account : Line
  sh_filename : Line
  out_filename : Line
  err_filename : Line
  max_running : Option Nat

/-- `self.additional_resources[kw].append(value)` on the association-list
model: append to the existing entry for `kw`, or create a new entry at the
end (a `defaultdict(list)` creates the key on first access). -/
def add_resource (res : List (Line × List Line)) (kw v : Line) :
    List (Line × List Line) :=
  match res with
  | [] => [(kw, [v])]
  | (k, vs) :: rest =>
    if k = kw then (k, vs ++ [v]) :: rest
    else (k, vs) :: add_resource rest kw v

/-- The `add_resource` method (source: `submitter.py` lines 204-209). -/
def Submitter.addResource (s : Submitter) (kw v : Line) : Submitter :=
  ⟨add_resource s.additional_resources kw v, s.commands, s.job_name, s.qtype,
   s.arr, s.nodes, s.ppn, s.walltime, s.queue, s.account, s.sh_filename,
   s.out_filename, s.err_filename, s.max_running⟩

/-- `number_jobs` property (source: `submitter.py` lines 172-178). -/
def number_jobs (s : Submitter) : Nat :=
  if s.arr then s.commands.length else 1

/-- One `"%s %s %s\n"` directive line of `_write_additional_resources`. -/
def mkResLine (pfx kw v : Line) : Line := pfx ++ [' '] ++ kw ++ [' '] ++ v

/-- `_write_additional_resources` (source: `submitter.py` lines 332-339):
for each key, one `"%s %s %s\n"` line per accumulated value.  The
`if self.additional_resources:` guard skips an empty dict, which writes
nothing either way. -/
def additionalResourceLines (pfx : Line) (res : List (Line × List Line)) :
    List Line :=
  res.flatMap (fun kv => kv.2.map (mkResLine pfx kv.1))

/-- `_write_pbs` (source: `submitter.py` lines 289-322), as the list of lines
it writes. -/
def write_pbs (s : Submitter) (pfx : Line) : List Line :=
  [pfx ++ " -l walltime=".toList ++ s.walltime,
   pfx ++ " -l nodes=".toList ++ natLine s.nodes ++ ":ppn=".toList ++ natLine s.ppn,
   pfx ++ " -A ".toList ++ s.account,
   pfx ++ " -q ".toList ++ s.queue]
  ++ (if s.queue = "glean".toList ∨ s.queue = "condo".toList then
        [pfx ++ " -W group_list=condo-group".toList]
      else [])
  ++ additionalResourceLines pfx s.additional_resources
  ++ (if s.arr then
        match s.max_running with
        | some m => [pfx ++ " -t 1-".toList ++ natLine (number_jobs s) ++ "%".toList ++ natLine m]
        | none => [pfx ++ " -t 1-".toList ++ natLine (number_jobs s)]
      else [])
  ++ [[], "# Go to the directory from which the script was called".toList,
      "cd $PBS_O_WORKDIR".toList]

/-- `_write_sge` (source: `submitter.py` lines 324-330). -/
def write_sge (s : Submitter) (pfx : Line) : List Line :=
  [pfx ++ " -S /bin/bash".toList, pfx ++ " -cwd".toList]
  ++ additionalResourceLines pfx s.additional_resources

/-- The header part written by `job` (source: `submitter.py` lines 246-259):
shebang, `-N`, `-o`, `-e`, `-V`, then the dialect block (nothing for an
unresolved dialect, whose prefix renders as `None`). -/
def headerLines (s : Submitter) : List Line :=
  let pfx := pyFormatOpt (queue_param_pfx s.qtype)
  ["#!/bin/bash".toList,
   pfx ++ " -N ".toList ++ s.job_name,
   pfx ++ " -o ".toList ++ s.out_filename,
   pfx ++ " -e ".toList ++ s.err_filename,
   pfx ++ " -V".toList]
  ++ (if s.qtype = some "SGE" then write_sge s pfx
      else if s.qtype = some "PBS" then write_pbs s pfx
      else [])

/-- `sh_file.write("cmd[%d]=\"%s\"\n" % ((i + 1), cmd))`
(source: `submitter.py` line 265). -/
def assignLine (i : Nat) (c : Line) : Line :=
  "cmd[".toList ++ natLine i ++ "]=\"".toList ++ c ++ "\"".toList

/-- The lines written by `for i, cmd in enumerate(self.commands)` with index
`i + 1` (source: `submitter.py` lines 264-265), starting at `i`. -/
def cmdLines (i : Nat) : List Line → List Line
  | [] => []
  | c :: cs => assignLine i c :: cmdLines (i + 1) cs

/-- `sh_file.write("eval ${cmd[%s]}\n" % (self.array_job_identifier))`
(source: `submitter.py` line 266). -/
def dispatchLine (qt : Option String) : Line :=
  "eval $\x7bcmd[".toList ++ pyFormatOpt (array_job_identifier qt) ++ "]\x7d".toList

/-- All lines of the rendered script, in the order `job` writes them
(source: `submitter.py` lines 245-273): header, then either the array body
(one assignment line per command, indices from 1, then the dispatch line) or
the commands verbatim, then the final bare `'\n'` as an empty line. -/
def renderScript (s : Submitter) : List Line :=
  headerLines s
  ++ (if s.arr then cmdLines 1 s.commands ++ [dispatchLine s.qtype]
      else s.commands)
  ++ [[]]

/-- A file written by the submitter: its name and its lines. -/
structure SFile where
  name : Line
  content : List Line
deriving DecidableEq

/-- The `job` method (source: `submitter.py` lines 211-287), as the files it
writes.  In the oversized-array branch (lines 229-242) the source calls
`Submitter(commands=..., ..., write_and_submit=True)`; `__init__` (lines
25-29) has no parameter named `write_and_submit`, so CPython raises
`TypeError` at the first chunk's construction, before any file is opened:
the branch produces no file at all.  Submission (`qsub`) is external and not
part of the file model. -/
def Submitter.job (s : Submitter) : Except PyError (List SFile) :=
  if MAX_ARRAY_JOBS < s.commands.length ∧ s.arr then .error .typeError
  else .ok [⟨s.sh_filename, renderScript s⟩]

/-- The field assignments of `__init__` (source: `submitter.py` lines
93-124), before the `chunksize` branch: SGE pre-adds the `-l bigmem` and
`-l h_vmem=16G` resources (lines 98-100); `sh` defaults to
`job_name + '.sh'`; `out`/`err` default to the sh filename plus
`.out`/`.err`.  A single string command is listified by the source (line
109-110); the model takes the list directly. -/
def mkState (commands : List Line) (job_name : Line) (queue_type : Option String)
    (sh : Option Line) (array : Option Bool) (nodes ppn : Nat)
    (walltime queue account : Line) (out err : Option Line)
    (max_running : Option Nat) (hostname : Line) : Submitter :=
  let qt := resolve_queue_type queue_type hostname
  let res := if qt = some "SGE" then
      add_resource (add_resource [] "-l".toList "bigmem".toList)
        "-l".toList "h_vmem=16G".toList
    else []
  let shf := sh.getD (job_name ++ ".sh".toList)
  let outf := out.getD (shf ++ ".out".toList)
  let errf := err.getD (shf ++ ".err".toList)
  ⟨res, commands, job_name, qt, truthy (resolve_array array hostname), nodes,
   ppn, walltime, queue, account, shf, outf, errf, max_running⟩

/-- Python 2 `str.replace(pat, rep)`: replace every non-overlapping
occurrence, scanning left to right (used for the `-{chunk}.sh` filename
derivation, source: `submitter.py` lines 138-140). -/
def replaceList (pat rep : List Char) : List Char → List Char
  | [] => []
  | c :: cs =>
    if !pat.isEmpty && pat.isPrefixOf (c :: cs) then
      rep ++ replaceList pat rep (cs.drop (pat.length - 1))
    else c :: replaceList pat rep cs
termination_by l => l.length
decreasing_by
  · simp only [List.length_drop, List.length_cons]
    omega
  · simp only [List.length_cons]
    omega

/-- `chunks = len(commands) / chunksize`, floor division in Python 2, plus
one when the division is not exact (source: `submitter.py` lines 129-131). -/
def numChunks (len cs : Nat) : Nat :=
  len / cs + (if len % cs = 0 then 0 else 1)

/-- `__init__` (source: `submitter.py` lines 92-146), as the files the whole
construction writes.  Order as in the source: the `ppn` check (lines
102-104, raising `ValueError` before any file is opened), then either
`self.job()` when `chunksize is None`, or the chunk loop (lines 129-146):
`chunksize = 0` raises `ZeroDivisionError` at line 129; otherwise each chunk
`commands[start:stop]` is handed to a fresh `Submitter` with `chunksize=None`
whose own `__init__` re-runs the same (passing) `ppn` check, re-derives the
SGE resources and calls `job()`.  The child receives the parent's resolved
`queue_type` and `array` property values, so its own resolution yields the
same values.  On an exception Python would keep files already written by
earlier chunks; the model's error case drops them, and no theorem below
depends on that difference. -/
def init (commands : List Line) (job_name : Line) (queue_type : Option String)
    (sh : Option Line) (array : Option Bool) (nodes ppn : Nat)
    (walltime queue account : Line) (out err : Option Line)
    (max_running : Option Nat) (chunksize : Option Nat) (hostname : Line) :
    Except PyError (List SFile) :=
  let qt := resolve_queue_type queue_type hostname
  if qt = some "PBS" ∧ 16 < ppn then .error .valueError
  else
    let s := mkState commands job_name queue_type sh array nodes ppn walltime
      queue account out err max_running hostname
    match chunksize with
    | none => s.job
    | some cs =>
      if cs = 0 then .error .zeroDivisionError
      else
        (List.range (numChunks commands.length cs)).foldlM
          (fun acc chunk =>
            let subset := (commands.drop (chunk * cs)).take cs
            let name := s.job_name ++ natLine chunk
            let tag := "-".toList ++ natLine chunk ++ ".sh".toList
            let sh2 := replaceList ".sh".toList tag s.sh_filename
            let out2 := replaceList ".sh".toList tag s.out_filename
            let err2 := replaceList ".sh".toList tag s.err_filename
            ((mkState subset name qt (some sh2) (resolve_array array hostname)
                s.nodes s.ppn s.walltime s.queue s.account (some out2)
                (some err2) s.max_running hostname).job).map
              (fun fs => acc ++ fs))
          []

/-! ## Helper lemmas: splitting, regex search, stripping -/

theorem consHead_ne_nil (x : Char) (r : List (List Char)) : consHead x r ≠ [] := by
  cases r <;> simp [consHead]

theorem splitOnChar_ne_nil (c : Char) (l : List Char) : splitOnChar c l ≠ [] := by
  cases l with
  | nil => simp [splitOnChar]
  | cons x xs =>
    simp only [splitOnChar]
    split
    · simp
    · exact consHead_ne_nil x _

theorem splitOnChar_not_mem {c : Char} {l : List Char} (h : c ∉ l) :
    splitOnChar c l = [l] := by
  induction l with
  | nil => rfl
  | cons x xs ih =>
    simp only [List.mem_cons, not_or] at h
    have hxc : ¬x = c := fun hx => h.1 hx.symm
    simp only [splitOnChar, ih h.2, if_neg hxc]
    rfl

theorem splitOnChar_append {c : Char} {a : List Char} (b : List Char) (h : c ∉ a) :
    splitOnChar c (a ++ c :: b) = a :: splitOnChar c b := by
  induction a with
  | nil =>
    rw [List.nil_append]
    show (if c = c then [] :: splitOnChar c b else consHead c (splitOnChar c b)) = _
    rw [if_pos rfl]
  | cons x xs ih =>
    simp only [List.mem_cons, not_or] at h
    have hxc : ¬x = c := fun hx => h.1 hx.symm
    simp only [List.cons_append, splitOnChar, List.append_eq, ih h.2,
      if_neg hxc]
    rfl

theorem length_consHead (x : Char) {r : List (List Char)} (h : r ≠ []) :
    (consHead x r).length = r.length := by
  cases r with
  | nil => exact absurd rfl h
  | cons y ys => rfl

theorem splitOnChar_length {c : Char} (l : List Char) :
    (splitOnChar c l).length = l.count c + 1 := by
  induction l with
  | nil => rfl
  | cons x xs ih =>
    simp only [splitOnChar]
    by_cases hx : x = c
    · subst hx
      rw [if_pos rfl]
      simp only [List.length_cons, ih]
      simp [List.count_cons]
    · rw [if_neg hx, length_consHead x (splitOnChar_ne_nil c xs), ih]
      simp [List.count_cons, hx]

theorem leadDigits_append {ds : List Char} (r : List Char)
    (hds : ds.all Char.isDigit = true)
    (hr : ∀ x, r.head? = some x → x.isDigit = false) :
    leadDigits (ds ++ r) = (ds, r) := by
  induction ds with
  | nil =>
    cases r with
    | nil => rfl
    | cons x xs =>
      have hx := hr x rfl
      simp [leadDigits, hx]
  | cons d ds ih =>
    simp only [List.all_cons, Bool.and_eq_true] at hds
    simp only [List.cons_append, leadDigits, hds.1, if_pos, List.append_eq,
      ih hds.2]

theorem bracketNumAt_not_open {c : Char} (l : List Char) (h : c ≠ '[') :
    bracketNumAt (c :: l) = none := by
  unfold bracketNumAt
  split
  · rename_i heq
    injection heq with h1 _
    exact absurd h1 h
  · rfl

theorem searchBracketNum_cons {c : Char} (l : List Char)
    (h : bracketNumAt (c :: l) = none) :
    searchBracketNum (c :: l) = searchBracketNum l := by
  simp only [searchBracketNum, h]

theorem not_mem_of_all_digit {l : List Char} (h : l.all Char.isDigit = true)
    {c : Char} (hc : c.isDigit = false) : c ∉ l := by
  intro hmem
  rw [List.all_eq_true] at h
  exact absurd (h c hmem) (by simp [hc])

theorem searchBracketNum_cmd (ds : List Char) (hne : ds ≠ [])
    (hds : ds.all Char.isDigit = true) :
    searchBracketNum ("cmd[".toList ++ (ds ++ [']'])) = some (digitsToNat ds) := by
  obtain ⟨d, ds', rfl⟩ := List.exists_cons_of_ne_nil hne
  have hlead : leadDigits ((d :: ds') ++ [']']) = (d :: ds', [']']) :=
    leadDigits_append [']'] hds (by intro x hx; cases hx; rfl)
  show searchBracketNum ('c' :: 'm' :: 'd' :: '[' :: ((d :: ds') ++ [']'])) = _
  rw [searchBracketNum_cons _ (bracketNumAt_not_open _ (by decide)),
      searchBracketNum_cons _ (bracketNumAt_not_open _ (by decide)),
      searchBracketNum_cons _ (bracketNumAt_not_open _ (by decide))]
  simp only [searchBracketNum, bracketNumAt, hlead]

theorem dropWhile_of_head {p : Char → Bool} {l : List Char}
    (h : ∀ x, l.head? = some x → p x = false) : l.dropWhile p = l := by
  cases l with
  | nil => rfl
  | cons x xs => simp [List.dropWhile_cons, h x rfl]

theorem pythonStrip_quote (c : List Char)
    (hh : ∀ x, c.head? = some x → stripSet x = false)
    (hl : ∀ x, c.getLast? = some x → stripSet x = false) :
    pythonStrip stripSet ('\"' :: (c ++ ['\"'])) = c := by
  cases c with
  | nil => rfl
  | cons x xs =>
    unfold pythonStrip
    have h1 : (('\"' : Char) :: ((x :: xs) ++ ['\"'])).dropWhile stripSet
        = ((x :: xs) ++ ['\"']).dropWhile stripSet := by
      simp [List.dropWhile_cons, stripSet]
    have h2 : ((x :: xs) ++ ['\"']).dropWhile stripSet = (x :: xs) ++ ['\"'] := by
      apply dropWhile_of_head
      intro z hz
      simp only [List.cons_append, List.head?_cons, Option.some.injEq] at hz
      exact hz ▸ hh x rfl
    have h3 : ((x :: xs) ++ ['\"']).reverse = '\"' :: (x :: xs).reverse := by
      simp
    rw [h1, h2, h3]
    have h4 : (('\"' : Char) :: (x :: xs).reverse).dropWhile stripSet
        = (x :: xs).reverse.dropWhile stripSet := by
      simp [List.dropWhile_cons, stripSet]
    rw [h4, dropWhile_of_head, List.reverse_reverse]
    intro z hz
    rw [List.head?_reverse] at hz
    exact hl z hz

/-- Decimal facts about `str(i)` for every index the parser can store
(`0 ≤ i ≤ 501` covers all array indices plus slack). -/
theorem natLine_facts : ∀ i, i < 502 →
    (natLine i ≠ [] ∧ (natLine i).all Char.isDigit = true ∧
      digitsToNat (natLine i) = i) := by
  set_option maxRecDepth 100000 in decide

/-! ## The parser on rendered assignment lines -/

/-- A command string the array round trip preserves exactly: no `'='` (the
parser's split would produce more than two fields and raise `ValueError`),
no newline (a `Line` models one physical line), and no leading or trailing
`'"'`/newline (the parser's `strip` would remove it). -/
def cleanCmd (c : Line) : Bool :=
  decide ('=' ∉ c) && decide ('\n' ∉ c) &&
    (match c.head? with
     | none => true
     | some x => !stripSet x) &&
    (match c.getLast? with
     | none => true
     | some x => !stripSet x)

theorem cleanCmd_not_mem_eq {c : Line} (h : cleanCmd c = true) : '=' ∉ c := by
  simp only [cleanCmd, Bool.and_eq_true, decide_eq_true_eq] at h
  exact h.1.1.1

theorem cleanCmd_head {c : Line} (h : cleanCmd c = true) :
    ∀ x, c.head? = some x → stripSet x = false := by
  simp only [cleanCmd, Bool.and_eq_true, decide_eq_true_eq] at h
  intro x hx
  have := h.1.2
  rw [hx] at this
  simpa using this

theorem cleanCmd_last {c : Line} (h : cleanCmd c = true) :
    ∀ x, c.getLast? = some x → stripSet x = false := by
  simp only [cleanCmd, Bool.and_eq_true, decide_eq_true_eq] at h
  intro x hx
  have := h.2
  rw [hx] at this
  simpa using this

theorem assignLine_eq (i : Nat) (c : Line) :
    assignLine i c
      = ("cmd[".toList ++ (natLine i ++ [']'])) ++ '=' :: ('\"' :: (c ++ ['\"'])) := by
  show "cmd[".toList ++ natLine i ++ [']', '=', '\"'] ++ c ++ ['\"'] = _
  simp

/-- Running the parser loop body on a rendered assignment line with a clean
command and an in-range index stores exactly the command. -/
theorem processLine_assign (cs : List Entry) (i : Nat) (c : Line)
    (hlen : cs.length = 501) (hi1 : 1 ≤ i) (hi : i ≤ 500)
    (hc : cleanCmd c = true) :
    processLine cs (assignLine i c) = .ok (cs.set i (.cmd c)) := by
  have hnat := natLine_facts i (by omega)
  have hmemL : '=' ∉ ("cmd[".toList ++ (natLine i ++ [']'])) := by
    intro hm
    rcases List.mem_append.mp hm with hm | hm
    · simp at hm
    rcases List.mem_append.mp hm with hm | hm
    · exact not_mem_of_all_digit hnat.2.1 (by decide) hm
    · simp at hm
  have hmemR : '=' ∉ ('\"' :: (c ++ ['\"'])) := by
    intro hm
    rcases List.mem_cons.mp hm with hm | hm
    · simp at hm
    rcases List.mem_append.mp hm with hm | hm
    · exact cleanCmd_not_mem_eq hc hm
    · simp at hm
  have hsplit : splitOnChar '=' (assignLine i c)
      = [("cmd[".toList ++ (natLine i ++ [']'])), '\"' :: (c ++ ['\"'])] := by
    rw [assignLine_eq, splitOnChar_append _ hmemL, splitOnChar_not_mem hmemR]
  have hpre : "cmd".toList.isPrefixOf (assignLine i c) = true := by
    rw [assignLine_eq]
    rfl
  have hsearch : searchBracketNum ("cmd[".toList ++ (natLine i ++ [']']))
      = some i := by
    rw [searchBracketNum_cmd (natLine i) hnat.1 hnat.2.1, hnat.2.2]
  have hstrip : pythonStrip stripSet ('\"' :: (c ++ ['\"'])) = c :=
    pythonStrip_quote c (cleanCmd_head hc) (cleanCmd_last hc)
  rw [processLine, if_pos hpre, hsplit]
  show (match searchBracketNum ("cmd[".toList ++ (natLine i ++ [']'])) with
    | none => Except.error PyError.attributeError
    | some index =>
      if index < cs.length then
        Except.ok (cs.set index (Entry.cmd (pythonStrip stripSet ('\"' :: (c ++ ['\"'])))))
      else Except.error PyError.indexError) = _
  rw [hsearch, hstrip]
  show (if i < cs.length then Except.ok (cs.set i (Entry.cmd c))
    else Except.error PyError.indexError) = _
  rw [if_pos (by omega)]

theorem processLine_skip {cs : List Entry} {l : Line}
    (h : "cmd".toList.isPrefixOf l = false) : processLine cs l = .ok cs := by
  rw [processLine, if_neg]
  simpa [← List.isPrefixOf_iff_prefix] using h

theorem foldlM_skips (lines : List Line) (cs : List Entry)
    (h : ∀ l ∈ lines, "cmd".toList.isPrefixOf l = false) :
    lines.foldlM processLine cs = .ok cs := by
  induction lines with
  | nil => rfl
  | cons l ls ih =>
    rw [List.foldlM_cons, processLine_skip (h l (.head _))]
    exact ih (fun x hx => h x (.tail _ hx))

/-- `setAll acc i cmds` stores the commands at consecutive indices starting
at `i`: the accumulated effect of the parser over the assignment lines. -/
def setAll (acc : List Entry) (i : Nat) : List Line → List Entry
  | [] => acc
  | c :: rest => setAll (acc.set i (.cmd c)) (i + 1) rest

theorem foldlM_cmdLines : ∀ (cmds : List Line) (k : Nat) (acc : List Entry),
    (∀ c ∈ cmds, cleanCmd c = true) → acc.length = 501 →
    k + cmds.length ≤ 500 →
    List.foldlM processLine acc (cmdLines (k + 1) cmds)
      = .ok (setAll acc (k + 1) cmds) := by
  intro cmds
  induction cmds with
  | nil => intro k acc _ _ _; rfl
  | cons c rest ih =>
    intro k acc hclean hlen hk
    simp only [List.length_cons] at hk
    rw [show cmdLines (k + 1) (c :: rest)
          = assignLine (k + 1) c :: cmdLines (k + 2) rest from rfl,
        List.foldlM_cons,
        processLine_assign acc (k + 1) c hlen (by omega) (by omega)
          (hclean c (.head _))]
    show List.foldlM processLine (acc.set (k + 1) (.cmd c))
        (cmdLines (k + 1 + 1) rest) = _
    rw [show k + 1 + 1 = (k + 1) + 1 from rfl,
        ih (k + 1) (acc.set (k + 1) (.cmd c))
          (fun x hx => hclean x (.tail _ hx)) (by simp [hlen]) (by omega)]
    rfl

theorem setAll_length : ∀ (cmds : List Line) (acc : List Entry) (i : Nat),
    (setAll acc i cmds).length = acc.length := by
  intro cmds
  induction cmds with
  | nil => intro acc i; rfl
  | cons c rest ih =>
    intro acc i
    rw [show setAll acc i (c :: rest) = setAll (acc.set i (.cmd c)) (i + 1) rest
          from rfl,
        ih]
    simp

theorem setAll_getElem_lo : ∀ (cmds : List Line) (acc : List Entry) (i j : Nat),
    j < i → (setAll acc i cmds)[j]? = acc[j]? := by
  intro cmds
  induction cmds with
  | nil => intro acc i j _; rfl
  | cons c rest ih =>
    intro acc i j hj
    rw [show setAll acc i (c :: rest) = setAll (acc.set i (.cmd c)) (i + 1) rest
          from rfl,
        ih _ _ _ (by omega),
        List.getElem?_set_ne (by omega)]

theorem setAll_getElem_mid : ∀ (cmds : List Line) (acc : List Entry) (i j : Nat),
    j < cmds.length → i + cmds.length ≤ acc.length →
    (setAll acc i cmds)[i + j]? = some (.cmd (cmds.getD j [])) := by
  intro cmds
  induction cmds with
  | nil => intro acc i j hj _; simp at hj
  | cons c rest ih =>
    intro acc i j hj hacc
    simp only [List.length_cons] at hj hacc
    rw [show setAll acc i (c :: rest) = setAll (acc.set i (.cmd c)) (i + 1) rest
          from rfl]
    cases j with
    | zero =>
      simp only [Nat.add_zero]
      rw [setAll_getElem_lo rest _ _ _ (by omega),
          List.getElem?_set_eq_of_lt _ (by omega)]
      rfl
    | succ j' =>
      rw [show i + (j' + 1) = (i + 1) + j' from by omega,
          ih _ _ _ (by omega) (by simp; omega)]
      rfl

theorem processLine_untouched {cs cs' : List Entry} {l : Line} {i : Nat}
    (h : processLine cs l = .ok cs') (hni : lineIndex l ≠ some i) :
    cs'.length = cs.length ∧ cs'[i]? = cs[i]? := by
  by_cases hp : "cmd".toList.isPrefixOf l = true
  · rw [processLine, if_pos hp] at h
    rw [lineIndex, if_pos hp] at hni
    rcases h2 : splitOnChar '=' l with _ | ⟨left, _ | ⟨right, _ | _⟩⟩ <;>
      rw [h2] at h hni
    · simp at h
    · simp at h
    · replace h : (match searchBracketNum left with
        | none => Except.error PyError.attributeError
        | some index =>
          if index < cs.length then
            Except.ok (cs.set index (Entry.cmd (pythonStrip stripSet right)))
          else Except.error PyError.indexError) = Except.ok cs' := h
      replace hni : searchBracketNum left ≠ some i := hni
      rcases h3 : searchBracketNum left with _ | k <;> rw [h3] at h hni
      · replace h : Except.error PyError.attributeError = Except.ok cs' := h
        simp at h
      · replace h : (if k < cs.length then
              Except.ok (cs.set k (Entry.cmd (pythonStrip stripSet right)))
            else Except.error PyError.indexError) = Except.ok cs' := h
        by_cases hk : k < cs.length
        · rw [if_pos hk] at h
          injection h with h4
          subst h4
          have hki : k ≠ i := fun he => hni (he ▸ rfl)
          exact ⟨by simp, List.getElem?_set_ne hki⟩
        · rw [if_neg hk] at h
          simp at h
    · simp at h
  · rw [processLine_skip (by
        cases hb : "cmd".toList.isPrefixOf l
        · rfl
        · exact absurd hb hp)] at h
    injection h with h4
    subst h4
    exact ⟨rfl, rfl⟩

theorem foldlM_untouched : ∀ (file : List Line) (acc res : List Entry) (i : Nat),
    List.foldlM processLine acc file = .ok res →
    (∀ l ∈ file, lineIndex l ≠ some i) →
    res.length = acc.length ∧ res[i]? = acc[i]? := by
  intro file
  induction file with
  | nil =>
    intro acc res i hfold _
    injection hfold with h4
    subst h4
    exact ⟨rfl, rfl⟩
  | cons l ls ih =>
    intro acc res i hfold hun
    rw [List.foldlM_cons] at hfold
    cases hpl : processLine acc l with
    | error e =>
      rw [hpl] at hfold
      have : (Except.error e >>= fun b => List.foldlM processLine b ls)
          = (Except.error e : Except PyError (List Entry)) := rfl
      rw [this] at hfold
      cases hfold
    | ok acc' =>
      rw [hpl] at hfold
      have : (Except.ok acc' >>= fun b => List.foldlM processLine b ls)
          = List.foldlM processLine acc' ls := rfl
      rw [this] at hfold
      obtain ⟨e1, e2⟩ := processLine_untouched hpl (hun l (.head _))
      obtain ⟨e3, e4⟩ := ih acc' res i hfold (fun x hx => hun x (.tail _ hx))
      exact ⟨e3.trans e1, e4.trans e2⟩

/-- C7 (amended): whenever `commands_from_sh` returns successfully, the result
has 501 entries, and every index `i ≤ 500` that no line of the file assigns
still holds its own numeric value (the placeholder `i`); in particular index
0 is the placeholder 0 whenever no line assigns index 0.  (As stated the
claim is false for arbitrary files: a line `cmd[0]="foo"` overwrites index
0, and an index above 500 crashes instead of returning.) -/
theorem claimC7 (file : List Line) (res : List Entry) (i : Nat)
    (hok : commands_from_sh file = .ok res)
    (hun : ∀ l ∈ file, lineIndex l ≠ some i) (hi : i ≤ 500) :
    res.length = 501 ∧ res[i]? = some (.num i) := by
  obtain ⟨h1, h2⟩ := foldlM_untouched file initialCommands res i hok hun
  refine ⟨by rw [h1]; simp [initialCommands, List.length_map, List.length_range], ?_⟩
  rw [h2]
  simp only [initialCommands, List.getElem?_map, List.getElem?_range
    (by omega : i < 501)]
  rfl

/-- C7 counterexample: on a file whose single line assigns index 0, the
returned collection holds the parsed command at index 0, not the unused
placeholder `0` the claim promises for every input file. -/
theorem claimC7_counterexample :
    (commands_from_sh ["cmd[0]=\"foo\"".toList]).map (fun cs => cs[0]?)
      = .ok (some (.cmd "foo".toList)) := by
  set_option maxRecDepth 100000 in rfl

/-- C7 witness: the empty file succeeds and keeps placeholder 0 at index 0. -/
theorem claimC7_witness :
    initialCommands.length = 501 ∧ initialCommands[0]? = some (Entry.num 0) :=
  claimC7 [] initialCommands 0 rfl (by simp) (by omega)

/-- C8 (amended): for a line beginning with the array-assignment prefix the
parser splits on ALL `'='` characters and unpacks exactly two fields, so a
line with any number of `'='` other than one fails with `ValueError` (in
particular when the quoted command itself contains `'='`); with exactly one
`'='`, the stored value is everything after it with surrounding quotes and
newlines stripped, the parse fails with `AttributeError` if the part before
the `'='` lacks a bracketed integer, and fails with `IndexError` if the
bracketed integer exceeds 500. -/
theorem claimC8 (cs : List Entry) (line left right : Line) (k : Nat)
    (hlen : cs.length = 501) (hp : "cmd".toList.isPrefixOf line = true) :
    (line.count '=' ≠ 1 → processLine cs line = .error .valueError)
    ∧ (splitOnChar '=' line = [left, right] →
        (searchBracketNum left = none → processLine cs line = .error .attributeError)
        ∧ (searchBracketNum left = some k → k ≤ 500 →
            processLine cs line = .ok (cs.set k (.cmd (pythonStrip stripSet right))))
        ∧ (searchBracketNum left = some k → 500 < k →
            processLine cs line = .error .indexError)) := by
  constructor
  · intro hcnt
    have hlen2 : (splitOnChar '=' line).length ≠ 2 := by
      rw [splitOnChar_length]
      omega
    rw [processLine, if_pos hp]
    rcases h2 : splitOnChar '=' line with _ | ⟨a, _ | ⟨b, _ | _⟩⟩ <;>
      rw [h2] at hlen2 <;> first
      | rfl
      | simp at hlen2
  · intro hsp
    refine ⟨?_, ?_, ?_⟩
    · intro hs
      rw [processLine, if_pos hp, hsp]
      show (match searchBracketNum left with
        | none => Except.error PyError.attributeError
        | some index =>
          if index < cs.length then
            Except.ok (cs.set index (Entry.cmd (pythonStrip stripSet right)))
          else Except.error PyError.indexError) = _
      rw [hs]
    · intro hs hk
      rw [processLine, if_pos hp, hsp]
      show (match searchBracketNum left with
        | none => Except.error PyError.attributeError
        | some index =>
          if index < cs.length then
            Except.ok (cs.set index (Entry.cmd (pythonStrip stripSet right)))
          else Except.error PyError.indexError) = _
      rw [hs]
      show (if k < cs.length then _ else _) = _
      rw [if_pos (by omega)]
    · intro hs hk
      rw [processLine, if_pos hp, hsp]
      show (match searchBracketNum left with
        | none => Except.error PyError.attributeError
        | some index =>
          if index < cs.length then
            Except.ok (cs.set index (Entry.cmd (pythonStrip stripSet right)))
          else Except.error PyError.indexError) = _
      rw [hs]
      show (if k < cs.length then _ else _) = _
      rw [if_neg (by omega)]

/-- C8 counterexample: the claim says the split happens on the FIRST `'='`
only, so a quoted command containing `'='` would still be stored; in fact a
line whose command contains `'='` makes the whole parse fail with
`ValueError` (Python: too many values to unpack). -/
theorem claimC8_counterexample :
    commands_from_sh ["cmd[1]=\"x=1\"".toList] = .error .valueError := by rfl

/-- C8 witness: a well-formed single-`'='` line is stored at its index. -/
theorem claimC8_witness :
    processLine initialCommands "cmd[2]=\"ok\"".toList
      = .ok (initialCommands.set 2
          (.cmd (pythonStrip stripSet "\"ok\"".toList))) :=
  ((claimC8 initialCommands "cmd[2]=\"ok\"".toList "cmd[2]".toList
      "\"ok\"".toList 2 (by simp [initialCommands]) (by rfl)).2
    (by rfl)).2.1 (by rfl) (by omega)

/-- C4: constructing a Submitter with the PBS dialect and 17 processors per
node raises `ValueError`, whatever all other parameters are; the check
(`__init__` lines 102-104) runs before `job()` is reached, and the script
file is opened only inside `job()` (line 245), so the error result carries
no file at all. -/
theorem claimC4 (commands : List Line) (job_name : Line) (sh : Option Line)
    (array : Option Bool) (nodes : Nat) (walltime queue account : Line)
    (out err : Option Line) (max_running : Option Nat) (chunksize : Option Nat)
    (hostname : Line) :
    init commands job_name (some "PBS") sh array nodes 17 walltime queue
      account out err max_running chunksize hostname = .error .valueError := by
  simp [init, resolve_queue_type]

/-- C9 counterexample: with the queue-type argument omitted, the signature
default `'PBS'` applies, so on an SGE cluster host (substring `oolite`) the
resolved dialect is still `PBS` while hostname matching would give `SGE`:
omission does NOT trigger hostname matching, contrary to the claim. -/
theorem claimC9_counterexample :
    resolve_queue_type default_queue_type "oolite-login".toList = some "PBS"
      ∧ hostname_dialect "oolite-login".toList = some "SGE"
      ∧ resolve_queue_type default_queue_type "oolite-login".toList
          ≠ hostname_dialect "oolite-login".toList := by
  refine ⟨rfl, by decide, by decide⟩

/-- C9 (amended): hostname matching decides the dialect only when the caller
passes `None` explicitly ('oolite'/'compute' give SGE, 'tscc' gives PBS, an
unmatched hostname gives the indeterminate `None`); any supplied value is
returned verbatim, and the omitted-argument default is the string `'PBS'`,
so omission silently selects PBS without consulting the hostname. -/
theorem claimC9 :
    (∀ h : Line, resolve_queue_type none h = hostname_dialect h)
      ∧ (∀ (q : String) (h : Line), resolve_queue_type (some q) h = some q)
      ∧ default_queue_type = some "PBS"
      ∧ resolve_queue_type none "myhost01".toList = none := by
  refine ⟨fun h => rfl, fun q h => rfl, rfl, by decide⟩

/-- C2: on 1200 commands with array mode on, `job` takes the oversized-array
branch (lines 229-242) whose recursive construction passes the keyword
argument `write_and_submit=True`; `__init__` has no such parameter, so the
call raises `TypeError` at the first chunk and produces no file — it never
renders the 3 chunked scripts of 500/500/200 commands that the docstring
(lines 37-40) and the claim describe. -/
theorem claimC2 :
    init (List.replicate 1200 "echo test".toList) "myjob".toList (some "PBS")
      none (some true) 1 1 "0:30:00".toList "home".toList "yeo-group".toList
      none none none none "tscc-0001".toList = .error .typeError := by
  set_option maxRecDepth 100000 in rfl

/-! ## Structure of the rendered script -/

theorem pfx_cases (qt : Option String) :
    pyFormatOpt (queue_param_pfx qt) = "#PBS".toList
      ∨ pyFormatOpt (queue_param_pfx qt) = "#$".toList
      ∨ pyFormatOpt (queue_param_pfx qt) = "None".toList := by
  rw [queue_param_pfx]
  by_cases h1 : qt = some "PBS"
  · rw [if_pos h1]
    exact Or.inl rfl
  · rw [if_neg h1]
    by_cases h2 : qt = some "SGE"
    · rw [if_pos h2]
      exact Or.inr (Or.inl rfl)
    · rw [if_neg h2]
      exact Or.inr (Or.inr rfl)

theorem mem_additionalResourceLines {pfx : Line} {res : List (Line × List Line)}
    {l : Line} (h : l ∈ additionalResourceLines pfx res) : ∃ t, l = pfx ++ t := by
  rw [additionalResourceLines, List.mem_flatMap] at h
  obtain ⟨kv, _, hl⟩ := h
  rw [List.mem_map] at hl
  obtain ⟨v, _, rfl⟩ := hl
  rw [mkResLine]
  exact ⟨[' '] ++ kv.1 ++ [' '] ++ v, by simp [List.append_assoc]⟩

theorem mem_trailing_block (pfx nj : Line) (mr : Option Nat) (arr : Bool)
    {l : Line}
    (h : l ∈ (if arr then
        (match mr with
          | some m => [pfx ++ " -t 1-".toList ++ nj ++ "%".toList ++ natLine m]
          | none => [pfx ++ " -t 1-".toList ++ nj])
      else ([] : List Line))) :
    ∃ t, l = pfx ++ t := by
  split at h
  · cases mr with
    | none =>
      simp only [List.mem_cons, List.not_mem_nil, or_false] at h
      subst h
      exact ⟨" -t 1-".toList ++ nj, by simp⟩
    | some m =>
      simp only [List.mem_cons, List.not_mem_nil, or_false] at h
      subst h
      exact ⟨" -t 1-".toList ++ nj ++ "%".toList ++ natLine m, by simp⟩
  · simp at h

theorem mem_headerLines {s : Submitter} {l : Line} (h : l ∈ headerLines s) :
    (∃ t, l = pyFormatOpt (queue_param_pfx s.qtype) ++ t)
      ∨ l = "#!/bin/bash".toList
      ∨ l = []
      ∨ l = "# Go to the directory from which the script was called".toList
      ∨ l = "cd $PBS_O_WORKDIR".toList := by
  rw [headerLines] at h
  rcases List.mem_append.mp h with h | h
  · simp only [List.mem_cons, List.not_mem_nil, or_false] at h
    rcases h with rfl | rfl | rfl | rfl | rfl
    · exact Or.inr (Or.inl rfl)
    · exact Or.inl ⟨" -N ".toList ++ s.job_name, by simp⟩
    · exact Or.inl ⟨" -o ".toList ++ s.out_filename, by simp⟩
    · exact Or.inl ⟨" -e ".toList ++ s.err_filename, by simp⟩
    · exact Or.inl ⟨" -V".toList, rfl⟩
  · by_cases h1 : s.qtype = some "SGE"
    · rw [if_pos h1, write_sge] at h
      rcases List.mem_append.mp h with h | h
      · simp only [List.mem_cons, List.not_mem_nil, or_false] at h
        rcases h with rfl | rfl
        · exact Or.inl ⟨" -S /bin/bash".toList, rfl⟩
        · exact Or.inl ⟨" -cwd".toList, rfl⟩
      · exact Or.inl (mem_additionalResourceLines h)
    · rw [if_neg h1] at h
      by_cases h2 : s.qtype = some "PBS"
      · rw [if_pos h2, write_pbs] at h
        rcases List.mem_append.mp h with h | h
        rotate_left
        · simp only [List.mem_cons, List.not_mem_nil, or_false] at h
          rcases h with rfl | rfl | rfl
          · exact Or.inr (Or.inr (Or.inl rfl))
          · exact Or.inr (Or.inr (Or.inr (Or.inl rfl)))
          · exact Or.inr (Or.inr (Or.inr (Or.inr rfl)))
        rcases List.mem_append.mp h with h | h
        rotate_left
        · exact Or.inl (mem_trailing_block _ _ _ _ h)
        rcases List.mem_append.mp h with h | h
        rotate_left
        · exact Or.inl (mem_additionalResourceLines h)
        rcases List.mem_append.mp h with h | h
        · simp only [List.mem_cons, List.not_mem_nil, or_false] at h
          rcases h with rfl | rfl | rfl | rfl
          · exact Or.inl ⟨" -l walltime=".toList ++ s.walltime, by simp⟩
          · exact Or.inl ⟨" -l nodes=".toList ++ natLine s.nodes
              ++ ":ppn=".toList ++ natLine s.ppn, by simp⟩
          · exact Or.inl ⟨" -A ".toList ++ s.account, by simp⟩
          · exact Or.inl ⟨" -q ".toList ++ s.queue, by simp⟩
        · refine Or.inl ?_
          split at h
          · simp only [List.mem_cons, List.not_mem_nil, or_false] at h
            subst h
            exact ⟨" -W group_list=condo-group".toList, rfl⟩
          · simp at h
      · rw [if_neg h2] at h
        simp at h

theorem header_no_cmd_no_eval {s : Submitter} {l : Line} (h : l ∈ headerLines s) :
    "cmd[".toList.isPrefixOf l = false ∧ "cmd".toList.isPrefixOf l = false
      ∧ "eval".toList.isPrefixOf l = false := by
  rcases mem_headerLines h with ⟨t, rfl⟩ | rfl | rfl | rfl | rfl
  · rcases pfx_cases s.qtype with hp | hp | hp <;> rw [hp] <;>
      exact ⟨rfl, rfl, rfl⟩
  · exact ⟨rfl, rfl, rfl⟩
  · exact ⟨rfl, rfl, rfl⟩
  · exact ⟨rfl, rfl, rfl⟩
  · exact ⟨rfl, rfl, rfl⟩

theorem bool_false_not {b : Bool} (h : b = false) : ¬b := by simp [h]

theorem assign_pfx (i : Nat) (c : Line) :
    "cmd[".toList.isPrefixOf (assignLine i c) = true
      ∧ "eval".toList.isPrefixOf (assignLine i c) = false := by
  constructor
  · rw [List.isPrefixOf_iff_prefix, assignLine]
    exact (((List.prefix_append _ _).trans (List.prefix_append _ _)).trans
      (List.prefix_append _ _)).trans (List.prefix_append _ _)
  · rw [assignLine_eq]
    rfl

theorem dispatch_pfx (qt : Option String) :
    "cmd[".toList.isPrefixOf (dispatchLine qt) = false
      ∧ "eval".toList.isPrefixOf (dispatchLine qt) = true := by
  constructor
  · rfl
  · rfl

theorem filter_pair_cmd (qt : Option String) :
    [dispatchLine qt, []].filter (fun l => "cmd[".toList.isPrefixOf l) = [] := by
  rfl

theorem filter_pair_eval (qt : Option String) :
    [dispatchLine qt, []].filter (fun l => "eval".toList.isPrefixOf l)
      = [dispatchLine qt] := by
  rfl

theorem mem_cmdLines : ∀ {cmds : List Line} {k : Nat} {l : Line},
    l ∈ cmdLines k cmds → ∃ i c, l = assignLine i c := by
  intro cmds
  induction cmds with
  | nil => intro k l h; simp [cmdLines] at h
  | cons c rest ih =>
    intro k l h
    rcases List.mem_cons.mp h with rfl | h
    · exact ⟨k, c, rfl⟩
    · exact ih h

theorem cmdLines_eq_range_map : ∀ (cmds : List Line) (k : Nat),
    cmdLines k cmds
      = (List.range cmds.length).map (fun j => assignLine (k + j) (cmds.getD j [])) := by
  intro cmds
  induction cmds with
  | nil => intro k; rfl
  | cons c rest ih =>
    intro k
    rw [show cmdLines k (c :: rest) = assignLine k c :: cmdLines (k + 1) rest
          from rfl,
        ih (k + 1), List.length_cons, List.range_succ_eq_map, List.map_cons,
        List.map_map]
    refine congrArg₂ _ (by rw [Nat.add_zero]; rfl) ?_
    refine List.map_congr_left fun j _ => ?_
    show assignLine (k + 1 + j) (rest.getD j []) = assignLine (k + (j + 1)) _
    rw [show k + 1 + j = k + (j + 1) from by omega]
    rfl

/-- C1: for every submitter state with array mode on and at most 500
commands, `job` writes exactly one file, the rendered script is the header
followed by the assignment lines and then the dispatch line; the lines
starting with `cmd[` are exactly one assignment line per command with the
bracketed index running from 1 to N in input order, and exactly one line
starts with `eval` — the dispatch line, which comes after every assignment
line. -/
theorem claimC1 (s : Submitter) (h1 : s.arr = true)
    (h2 : s.commands.length ≤ MAX_ARRAY_JOBS) :
    s.job = .ok [⟨s.sh_filename, renderScript s⟩]
      ∧ renderScript s
          = headerLines s ++ (cmdLines 1 s.commands ++ [dispatchLine s.qtype, []])
      ∧ (renderScript s).filter (fun l => "cmd[".toList.isPrefixOf l)
          = (List.range s.commands.length).map
              (fun j => assignLine (j + 1) (s.commands.getD j []))
      ∧ (renderScript s).filter (fun l => "eval".toList.isPrefixOf l)
          = [dispatchLine s.qtype] := by
  have h2' : s.commands.length ≤ 500 := h2
  have hrender : renderScript s
      = headerLines s ++ (cmdLines 1 s.commands ++ [dispatchLine s.qtype, []]) := by
    rw [renderScript, if_pos h1]
    simp [List.append_assoc]
  have hfilterH : ∀ (p : Line → Bool), (∀ l ∈ headerLines s, p l = false) →
      (headerLines s).filter p = [] := by
    intro p hp
    rw [List.filter_eq_nil_iff]
    intro a ha
    simp [hp a ha]
  refine ⟨?_, hrender, ?_, ?_⟩
  · rw [Submitter.job, if_neg]
    intro hcontra
    have := hcontra.1
    omega
  · rw [hrender, List.filter_append, List.filter_append,
        hfilterH _ (fun l hl => (header_no_cmd_no_eval hl).1)]
    have hkeep : (cmdLines 1 s.commands).filter
        (fun l => "cmd[".toList.isPrefixOf l) = cmdLines 1 s.commands := by
      rw [List.filter_eq_self]
      intro a ha
      obtain ⟨i, c, rfl⟩ := mem_cmdLines ha
      exact (assign_pfx i c).1
    rw [hkeep, filter_pair_cmd]
    rw [List.append_nil, List.nil_append, cmdLines_eq_range_map]
    refine List.map_congr_left fun j _ => ?_
    rw [Nat.add_comm]
  · rw [hrender, List.filter_append, List.filter_append,
        hfilterH _ (fun l hl => (header_no_cmd_no_eval hl).2.2)]
    have hdrop : (cmdLines 1 s.commands).filter
        (fun l => "eval".toList.isPrefixOf l) = [] := by
      rw [List.filter_eq_nil_iff]
      intro a ha
      obtain ⟨i, c, rfl⟩ := mem_cmdLines ha
      exact bool_false_not (assign_pfx i c).2
    rw [hdrop, filter_pair_eval]
    rw [List.nil_append, List.nil_append]

/-- A concrete two-command array submitter state used as witness input. -/
def wSub : Submitter :=
  ⟨[], ["echo a".toList, "echo b".toList], "j".toList, some "PBS", true, 1, 1,
   "0:30:00".toList, "home".toList, "yeo-group".toList, "j.sh".toList,
   "j.sh.out".toList, "j.sh.err".toList, none⟩

/-- C1 witness: the claim instantiated at the concrete two-command state. -/
theorem claimC1_witness :
    wSub.job = .ok [⟨wSub.sh_filename, renderScript wSub⟩]
      ∧ renderScript wSub
          = headerLines wSub
              ++ (cmdLines 1 wSub.commands ++ [dispatchLine wSub.qtype, []])
      ∧ (renderScript wSub).filter (fun l => "cmd[".toList.isPrefixOf l)
          = (List.range wSub.commands.length).map
              (fun j => assignLine (j + 1) (wSub.commands.getD j []))
      ∧ (renderScript wSub).filter (fun l => "eval".toList.isPrefixOf l)
          = [dispatchLine wSub.qtype] :=
  claimC1 wSub rfl (by decide)

theorem initialCommands_length : initialCommands.length = 501 := by
  simp [initialCommands]

theorem foldlM_processLine_append (l1 l2 : List Line) (acc m : List Entry)
    (h1 : List.foldlM processLine acc l1 = .ok m) :
    List.foldlM processLine acc (l1 ++ l2) = List.foldlM processLine m l2 := by
  induction l1 generalizing acc with
  | nil =>
    injection h1 with h
    subst h
    rfl
  | cons a l1' ih =>
    rw [List.cons_append]
    rw [List.foldlM_cons] at h1 ⊢
    cases hpl : processLine acc a with
    | error e =>
      rw [hpl] at h1
      have : (Except.error e >>= fun b => List.foldlM processLine b l1')
          = (Except.error e : Except PyError (List Entry)) := rfl
      rw [this] at h1
      cases h1
    | ok acc' =>
      rw [hpl] at h1
      have hb : ∀ (r : List Line),
          (Except.ok acc' >>= fun b => List.foldlM processLine b r)
            = List.foldlM processLine acc' r := fun r => rfl
      rw [hb] at h1
      rw [hb]
      exact ih acc' h1

/-- C3 (amended): for every array submitter state with at most 500 commands,
each containing no `'='`, no newline, and not starting or ending with a
quote character, applying `commands_from_sh` to the rendered script succeeds
and returns exactly the original commands written over the placeholder list,
with the command of 0-based position `j` stored at 1-based index `1 + j`.
(As stated, the round trip fails: a command containing `'='` makes the
extractor raise `ValueError`, and surrounding quote characters would be
stripped away.) -/
theorem claimC3 (s : Submitter) (j : Nat) (h1 : s.arr = true)
    (h2 : s.commands.length ≤ MAX_ARRAY_JOBS)
    (h3 : ∀ c ∈ s.commands, cleanCmd c = true) :
    commands_from_sh (renderScript s) = .ok (setAll initialCommands 1 s.commands)
      ∧ (j < s.commands.length →
          (setAll initialCommands 1 s.commands)[1 + j]?
            = some (.cmd (s.commands.getD j []))) := by
  have h2' : s.commands.length ≤ 500 := h2
  have hstep : List.foldlM processLine initialCommands (cmdLines 1 s.commands)
      = .ok (setAll initialCommands 1 s.commands) := by
    simpa using foldlM_cmdLines s.commands 0 initialCommands h3
      initialCommands_length (by omega)
  have hmain : commands_from_sh (renderScript s)
      = .ok (setAll initialCommands 1 s.commands) := by
    rw [commands_from_sh, renderScript, if_pos h1, List.append_assoc,
        List.append_assoc]
    rw [foldlM_processLine_append _ _ _ initialCommands
      (foldlM_skips _ _ (fun l hl => (header_no_cmd_no_eval hl).2.1))]
    rw [foldlM_processLine_append _ _ _ _ hstep]
    refine foldlM_skips _ _ ?_
    intro l hl
    rw [show [dispatchLine s.qtype] ++ [([] : Line)]
          = [dispatchLine s.qtype, []] from rfl] at hl
    rcases List.mem_cons.mp hl with rfl | hl
    · rfl
    · rcases List.mem_cons.mp hl with rfl | hl
      · rfl
      · simp at hl
  exact ⟨hmain, fun hj => by
    rw [setAll_getElem_mid s.commands initialCommands 1 j hj
      (by rw [initialCommands_length]; omega)]⟩

/-- An array submitter state whose single command contains `'='`. -/
def cxSub : Submitter :=
  ⟨[], ["x=1".toList], "j".toList, some "PBS", true, 1, 1, "0:30:00".toList,
   "home".toList, "yeo-group".toList, "j.sh".toList, "j.sh.out".toList,
   "j.sh.err".toList, none⟩

/-- C3 counterexample: rendering the one-command list `x=1` (array mode on)
and parsing the file back does not return the original command — the
extractor fails with `ValueError`, because the assignment line
`cmd[1]="x=1"` contains two `'='` characters. -/
theorem claimC3_counterexample :
    commands_from_sh (renderScript cxSub) = .error .valueError := by
  set_option maxRecDepth 100000 in rfl

/-- C3 witness: the round trip at the concrete two-command state. -/
theorem claimC3_witness :
    commands_from_sh (renderScript wSub)
        = .ok (setAll initialCommands 1 wSub.commands)
      ∧ (0 < wSub.commands.length →
          (setAll initialCommands 1 wSub.commands)[1 + 0]?
            = some (.cmd (wSub.commands.getD 0 []))) :=
  claimC3 wSub 0 rfl (by decide) (by decide)

/-! ## Additional-resource accumulation -/

/-- Python dict lookup `additional_resources[kw]` on the association-list
model (`[]` for an absent key, as `defaultdict(list)` would create). -/
def lookupRes (res : List (Line × List Line)) (kw : Line) : List Line :=
  match res with
  | [] => []
  | (k, vs) :: rest => if k = kw then vs else lookupRes rest kw

theorem lookupRes_add_self (res : List (Line × List Line)) (kw v : Line) :
    lookupRes (add_resource res kw v) kw = lookupRes res kw ++ [v] := by
  induction res with
  | nil => simp [add_resource, lookupRes]
  | cons kv rest ih =>
    obtain ⟨k, vs⟩ := kv
    by_cases hk : k = kw
    · subst hk
      simp [add_resource, lookupRes]
    · simp [add_resource, lookupRes, hk, ih]

theorem lookupRes_add_other (res : List (Line × List Line)) (kw v k' : Line)
    (h : k' ≠ kw) :
    lookupRes (add_resource res kw v) k' = lookupRes res k' := by
  induction res with
  | nil => simp [add_resource, lookupRes, Ne.symm h]
  | cons kv rest ih =>
    obtain ⟨k, vs⟩ := kv
    by_cases hk : k = kw
    · subst hk
      simp [add_resource, lookupRes, Ne.symm h]
    · simp [add_resource, lookupRes, hk, ih]

theorem additionalResourceLines_cons (pfx k : Line) (vs : List Line)
    (rest : List (Line × List Line)) :
    additionalResourceLines pfx ((k, vs) :: rest)
      = vs.map (mkResLine pfx k) ++ additionalResourceLines pfx rest := by
  simp [additionalResourceLines]

/-- Two appended values under one keyword appear as two directive lines in
order among the rendered resource lines, whatever was accumulated before. -/
theorem sublist_add_twice (res : List (Line × List Line)) (kw v1 v2 pfx : Line) :
    List.Sublist [mkResLine pfx kw v1, mkResLine pfx kw v2]
      (additionalResourceLines pfx
        (add_resource (add_resource res kw v1) kw v2)) := by
  induction res with
  | nil =>
    have : add_resource (add_resource [] kw v1) kw v2 = [(kw, [v1, v2])] := by
      simp [add_resource]
    rw [this, additionalResourceLines_cons]
    simp
  | cons kv rest ih =>
    obtain ⟨k, vs⟩ := kv
    by_cases hk : k = kw
    · subst hk
      have : add_resource (add_resource ((k, vs) :: rest) k v1) k v2
          = (k, (vs ++ [v1]) ++ [v2]) :: rest := by
        simp [add_resource]
      rw [this, additionalResourceLines_cons, List.map_append, List.map_append]
      rw [List.append_assoc, List.append_assoc]
      refine List.Sublist.trans ?_
        (List.sublist_append_right (vs.map (mkResLine pfx k)) _)
      simp
    · have : add_resource (add_resource ((k, vs) :: rest) kw v1) kw v2
          = (k, vs) :: add_resource (add_resource rest kw v1) kw v2 := by
        simp [add_resource, hk]
      rw [this, additionalResourceLines_cons]
      exact ih.trans (List.sublist_append_right _ _)

/-- The rendered resource lines are contiguous inside the rendered script for
either concrete dialect. -/
theorem resLines_sublist_render (s : Submitter)
    (hq : s.qtype = some "PBS" ∨ s.qtype = some "SGE") :
    List.Sublist (additionalResourceLines (pyFormatOpt (queue_param_pfx s.qtype))
        s.additional_resources) (renderScript s) := by
  have hh : List.Sublist (additionalResourceLines
      (pyFormatOpt (queue_param_pfx s.qtype)) s.additional_resources)
      (headerLines s) := by
    rw [headerLines]
    rcases hq with hq | hq
    · rw [if_neg (by rw [hq]; simp), if_pos hq, write_pbs]
      refine List.Sublist.trans ?_ (List.sublist_append_right _ _)
      refine List.Sublist.trans ?_ (List.sublist_append_left _ _)
      refine List.Sublist.trans ?_ (List.sublist_append_left _ _)
      exact List.sublist_append_right _ _
    · rw [if_pos hq, write_sge]
      refine List.Sublist.trans ?_ (List.sublist_append_right _ _)
      exact List.sublist_append_right _ _
  rw [renderScript]
  exact (hh.trans (List.sublist_append_left _ _)).trans
    (List.sublist_append_left _ _)

/-- C5: `add_resource` appends one value to the keyword's ordered list (the
lookup after adding `v1` then `v2` under one keyword is the old list plus
`[v1, v2]`, not deduplicated), and the script rendered from the state after
the two calls contains both directive lines, in that order; in particular
adding (`-l`, `mem=4G`) then (`-l`, `mem=8G`) yields both `... -l mem=4G`
and `... -l mem=8G` lines in order. -/
theorem claimC5 (s : Submitter) (kw v1 v2 : Line)
    (hq : s.qtype = some "PBS" ∨ s.qtype = some "SGE") :
    lookupRes ((s.addResource kw v1).addResource kw v2).additional_resources kw
        = lookupRes s.additional_resources kw ++ [v1, v2]
      ∧ List.Sublist
          [mkResLine (pyFormatOpt (queue_param_pfx s.qtype)) kw v1,
           mkResLine (pyFormatOpt (queue_param_pfx s.qtype)) kw v2]
          (renderScript ((s.addResource kw v1).addResource kw v2)) := by
  constructor
  · show lookupRes
        (add_resource (add_resource s.additional_resources kw v1) kw v2) kw = _
    rw [lookupRes_add_self, lookupRes_add_self, List.append_assoc]
    rfl
  · exact (sublist_add_twice s.additional_resources kw v1 v2 _).trans
      (resLines_sublist_render ((s.addResource kw v1).addResource kw v2) hq)

/-- C5 witness: the `-l mem=4G` / `-l mem=8G` instance on a concrete PBS
state. -/
theorem claimC5_witness :
    lookupRes ((wSub.addResource "-l".toList "mem=4G".toList).addResource
          "-l".toList "mem=8G".toList).additional_resources "-l".toList
        = lookupRes wSub.additional_resources "-l".toList
            ++ ["mem=4G".toList, "mem=8G".toList]
      ∧ List.Sublist
          [mkResLine (pyFormatOpt (queue_param_pfx wSub.qtype)) "-l".toList
             "mem=4G".toList,
           mkResLine (pyFormatOpt (queue_param_pfx wSub.qtype)) "-l".toList
             "mem=8G".toList]
          (renderScript ((wSub.addResource "-l".toList "mem=4G".toList).addResource
            "-l".toList "mem=8G".toList)) :=
  claimC5 wSub "-l".toList "mem=4G".toList "mem=8G".toList (Or.inl rfl)

/-- A sequence of caller `add_resource` calls after construction. -/
def applyAdds (s : Submitter) (extras : List (Line × Line)) : Submitter :=
  extras.foldl (fun t kv => t.addResource kv.1 kv.2) s

/-- The values a sequence of `add_resource` calls contributes under one
keyword, in call order. -/
def valuesFor (kw : Line) : List (Line × Line) → List Line
  | [] => []
  | kv :: rest =>
    if kv.1 = kw then kv.2 :: valuesFor kw rest else valuesFor kw rest

theorem applyAdds_fields : ∀ (extras : List (Line × Line)) (s : Submitter),
    (applyAdds s extras).additional_resources
        = extras.foldl (fun r kv => add_resource r kv.1 kv.2)
            s.additional_resources
      ∧ (applyAdds s extras).qtype = s.qtype := by
  intro extras
  induction extras with
  | nil => intro s; exact ⟨rfl, rfl⟩
  | cons kv rest ih =>
    intro s
    exact ih (s.addResource kv.1 kv.2)

theorem lookup_foldl_adds : ∀ (extras : List (Line × Line))
    (res : List (Line × List Line)) (kw : Line),
    lookupRes (extras.foldl (fun r kv => add_resource r kv.1 kv.2) res) kw
      = lookupRes res kw ++ valuesFor kw extras := by
  intro extras
  induction extras with
  | nil => intro res kw; simp [valuesFor]
  | cons kv rest ih =>
    intro res kw
    rw [List.foldl_cons, ih, valuesFor]
    by_cases hk : kv.1 = kw
    · rw [if_pos hk, hk, lookupRes_add_self, List.append_assoc]
      rfl
    · rw [if_neg hk, lookupRes_add_other _ _ _ _ (fun he => hk he.symm)]

/-- Folding further `add_resource` calls over a state whose first entry is
`(kw, a :: b :: vs)` keeps `(kw, a :: b :: _)` as the first entry: values are
only appended, new keys go to the back. -/
theorem head_entry_foldl : ∀ (extras : List (Line × Line)) (kw a b : Line)
    (vs : List Line) (rest : List (Line × List Line)),
    ∃ vs' rest',
      extras.foldl (fun r kv => add_resource r kv.1 kv.2)
          ((kw, a :: b :: vs) :: rest)
        = (kw, a :: b :: vs') :: rest' := by
  intro extras
  induction extras with
  | nil => intro kw a b vs rest; exact ⟨vs, rest, rfl⟩
  | cons kv tail ih =>
    intro kw a b vs rest
    rw [List.foldl_cons]
    by_cases hk : kw = kv.1
    · rw [show add_resource ((kw, a :: b :: vs) :: rest) kv.1 kv.2
            = (kw, a :: b :: (vs ++ [kv.2])) :: rest from by
          simp [add_resource, hk]]
      exact ih kw a b (vs ++ [kv.2]) rest
    · rw [show add_resource ((kw, a :: b :: vs) :: rest) kv.1 kv.2
            = (kw, a :: b :: vs) :: add_resource rest kv.1 kv.2 from by
          simp [add_resource, hk]]
      exact ih kw a b vs (add_resource rest kv.1 kv.2)

theorem sublist_head_entry (pfx kw a b : Line) (vs : List Line)
    (rest : List (Line × List Line)) :
    List.Sublist [mkResLine pfx kw a, mkResLine pfx kw b]
      (additionalResourceLines pfx ((kw, a :: b :: vs) :: rest)) := by
  rw [additionalResourceLines_cons, List.map_cons, List.map_cons,
      List.cons_append, List.cons_append]
  exact List.Sublist.cons₂ _ (List.Sublist.cons₂ _ (List.nil_sublist _))

/-- C10 (implicit): a constructor resolving to the SGE dialect pre-populates
the additional resources with exactly (`-l`, `bigmem`) then
(`-l`, `h_vmem=16G`); whatever resources the caller adds afterwards, the
`-l` list starts with those two values followed by the caller's `-l` values
in call order, and the rendered script contains the header lines
`#$ -l bigmem` and `#$ -l h_vmem=16G` in that order.  A constructor
resolving to PBS adds no resource at all. -/
theorem claimC10 (commands : List Line) (job_name : Line) (qt : Option String)
    (sh : Option Line) (array : Option Bool) (nodes ppn : Nat)
    (walltime queue account : Line) (out err : Option Line)
    (mr : Option Nat) (hostname : Line) (extras : List (Line × Line)) :
    (resolve_queue_type qt hostname = some "SGE" →
      (mkState commands job_name qt sh array nodes ppn walltime queue account
          out err mr hostname).additional_resources
          = [("-l".toList, ["bigmem".toList, "h_vmem=16G".toList])]
        ∧ lookupRes (applyAdds (mkState commands job_name qt sh array nodes ppn
              walltime queue account out err mr hostname)
              extras).additional_resources "-l".toList
            = "bigmem".toList :: "h_vmem=16G".toList
                :: valuesFor "-l".toList extras
        ∧ List.Sublist
            [mkResLine "#$".toList "-l".toList "bigmem".toList,
             mkResLine "#$".toList "-l".toList "h_vmem=16G".toList]
            (renderScript (applyAdds (mkState commands job_name qt sh array
              nodes ppn walltime queue account out err mr hostname) extras)))
    ∧ (resolve_queue_type qt hostname = some "PBS" →
        (mkState commands job_name qt sh array nodes ppn walltime queue
            account out err mr hostname).additional_resources = []) := by
  constructor
  · intro hsge
    have hres : (mkState commands job_name qt sh array nodes ppn walltime
        queue account out err mr hostname).additional_resources
        = [("-l".toList, ["bigmem".toList, "h_vmem=16G".toList])] := by
      show (if resolve_queue_type qt hostname = some "SGE" then
          add_resource (add_resource [] "-l".toList "bigmem".toList)
            "-l".toList "h_vmem=16G".toList
        else []) = _
      rw [if_pos hsge]
      rfl
    have hqt : (mkState commands job_name qt sh array nodes ppn walltime
        queue account out err mr hostname).qtype = some "SGE" := hsge
    obtain ⟨hfold, hqt2⟩ := applyAdds_fields extras (mkState commands job_name
      qt sh array nodes ppn walltime queue account out err mr hostname)
    refine ⟨hres, ?_, ?_⟩
    · rw [hfold, lookup_foldl_adds, hres]
      rfl
    · obtain ⟨vs', rest', hshape⟩ := head_entry_foldl extras "-l".toList
        "bigmem".toList "h_vmem=16G".toList [] []

      have hres2 : (applyAdds (mkState commands job_name qt sh array nodes ppn
          walltime queue account out err mr hostname)
          extras).additional_resources
          = ("-l".toList, "bigmem".toList :: "h_vmem=16G".toList :: vs')
              :: rest' := by
        rw [hfold, hres]
        exact hshape
      have hpfx : pyFormatOpt (queue_param_pfx (applyAdds (mkState commands
          job_name qt sh array nodes ppn walltime queue account out err mr
          hostname) extras).qtype) = "#$".toList := by
        rw [hqt2, hqt]
        rfl
      refine List.Sublist.trans ?_ (resLines_sublist_render _ (Or.inr (by
        rw [hqt2, hqt])))
      rw [hpfx, hres2]
      exact sublist_head_entry "#$".toList "-l".toList "bigmem".toList
        "h_vmem=16G".toList vs' rest'
  · intro hpbs
    show (if resolve_queue_type qt hostname = some "SGE" then
        add_resource (add_resource [] "-l".toList "bigmem".toList)
          "-l".toList "h_vmem=16G".toList
      else []) = _
    rw [if_neg (by rw [hpbs]; simp)]

/-- C10 witness: the SGE and PBS instances at concrete arguments with no
caller-supplied resources. -/
theorem claimC10_witness :
    ((mkState ["c".toList] "j".toList (some "SGE") none (some false) 1 1
        "w".toList "home".toList "a".toList none none none
        "h".toList).additional_resources
        = [("-l".toList, ["bigmem".toList, "h_vmem=16G".toList])]
      ∧ lookupRes (applyAdds (mkState ["c".toList] "j".toList (some "SGE")
            none (some false) 1 1 "w".toList "home".toList "a".toList none
            none none "h".toList) []).additional_resources "-l".toList
          = "bigmem".toList :: "h_vmem=16G".toList :: valuesFor "-l".toList []
      ∧ List.Sublist
          [mkResLine "#$".toList "-l".toList "bigmem".toList,
           mkResLine "#$".toList "-l".toList "h_vmem=16G".toList]
          (renderScript (applyAdds (mkState ["c".toList] "j".toList
            (some "SGE") none (some false) 1 1 "w".toList "home".toList
            "a".toList none none none "h".toList) [])))
    ∧ (mkState ["c".toList] "j".toList (some "PBS") none (some false) 1 1
        "w".toList "home".toList "a".toList none none none
        "h".toList).additional_resources = [] :=
  ⟨(claimC10 ["c".toList] "j".toList (some "SGE") none (some false) 1 1
      "w".toList "home".toList "a".toList none none none "h".toList []).1 rfl,
   (claimC10 ["c".toList] "j".toList (some "PBS") none (some false) 1 1
      "w".toList "home".toList "a".toList none none none "h".toList []).2 rfl⟩

/-! ## Chunked serial mode -/

theorem numChunks_zero (cs : Nat) : numChunks 0 cs = 0 := by
  simp [numChunks]

theorem numChunks_small {len cs : Nat} (h1 : 0 < len) (h2 : len ≤ cs) :
    numChunks len cs = 1 := by
  rcases Nat.lt_or_ge len cs with h | h
  · rw [numChunks, Nat.div_eq_of_lt h, Nat.mod_eq_of_lt h, if_neg (by omega)]
  · have : len = cs := by omega
    subst this
    rw [numChunks, Nat.div_self h1, Nat.mod_self, if_pos rfl]

theorem numChunks_step {len cs : Nat} (h : cs < len) (hcs : 0 < cs) :
    numChunks len cs = numChunks (len - cs) cs + 1 := by
  rw [numChunks, numChunks, Nat.div_eq_sub_div hcs (by omega),
      Nat.mod_eq_sub_mod (by omega)]
  omega

/-- The fixed-size contiguous chunks of a list concatenate back to the list:
the chunk loop partitions the command list. -/
theorem chunks_flatten (cs : Nat) (hcs : 0 < cs) (l : List Line) :
    ((List.range (numChunks l.length cs)).map
      (fun i => (l.drop (i * cs)).take cs)).flatten = l := by
  by_cases hlen : l.length ≤ cs
  · rcases Nat.eq_zero_or_pos l.length with h0 | hpos
    · have h1 : l = [] := List.length_eq_zero.mp h0
      subst h1
      simp [numChunks_zero]
    · rw [numChunks_small hpos hlen,
          show List.range 1 = [0] from rfl]
      simp [List.take_of_length_le hlen]
  · replace hlen : cs < l.length := by omega
    have hrec := chunks_flatten cs hcs (l.drop cs)
    rw [List.length_drop] at hrec
    rw [numChunks_step hlen hcs, List.range_succ_eq_map, List.map_cons,
        List.map_map, List.flatten_cons, Nat.zero_mul, List.drop_zero]
    have hmap : (List.range (numChunks (l.length - cs) cs)).map
        ((fun i => (l.drop (i * cs)).take cs) ∘ Nat.succ)
        = (List.range (numChunks (l.length - cs) cs)).map
          (fun i => ((l.drop cs).drop (i * cs)).take cs) := by
      refine List.map_congr_left fun j _ => ?_
      show (l.drop ((j + 1) * cs)).take cs = _
      rw [List.drop_drop, show cs + j * cs = (j + 1) * cs from by ring]
    rw [hmap, hrec, List.take_append_drop]
termination_by l.length
decreasing_by
  simp only [List.length_drop]
  omega

theorem resolve_queue_type_idem (user : Option String) (h : Line) :
    resolve_queue_type (resolve_queue_type user h) h
      = resolve_queue_type user h := by
  rcases user with _ | q
  · rw [resolve_queue_type]
    by_cases h1 : hostSge h
    · simp [resolve_queue_type, h1]
    · by_cases h2 : hostTscc h <;> simp [resolve_queue_type, h1, h2]
  · rfl

theorem resolve_array_idem (user : Option Bool) (h : Line) :
    resolve_array (resolve_array user h) h = resolve_array user h := by
  rcases user with _ | b
  · rw [resolve_array]
    by_cases h1 : hostSge h
    · simp [resolve_array, h1]
    · by_cases h2 : hostTscc h <;> simp [resolve_array, h1, h2]
  · rfl

theorem foldlM_except_append {α β : Type} (f : β → α → Except PyError β) :
    ∀ (l1 : List α) (l2 : List α) (acc m : β),
    List.foldlM f acc l1 = .ok m →
    List.foldlM f acc (l1 ++ l2) = List.foldlM f m l2 := by
  intro l1
  induction l1 with
  | nil =>
    intro l2 acc m h1
    injection h1 with h
    subst h
    rfl
  | cons a l1' ih =>
    intro l2 acc m h1
    rw [List.cons_append]
    rw [List.foldlM_cons] at h1 ⊢
    cases hpl : f acc a with
    | error e =>
      rw [hpl] at h1
      have hnext : (Except.error e >>= fun b => List.foldlM f b l1')
          = (Except.error e : Except PyError β) := rfl
      rw [hnext] at h1
      cases h1
    | ok acc' =>
      rw [hpl] at h1
      have hb : ∀ (r : List α),
          (Except.ok acc' >>= fun b => List.foldlM f b r)
            = List.foldlM f acc' r := fun r => rfl
      rw [hb] at h1
      rw [hb]
      exact ih l2 acc' m h1

theorem foldlM_range_ok {α : Type} (f : Nat → Except PyError (List α))
    (g : Nat → List α) (hf : ∀ i, f i = .ok (g i)) :
    ∀ (n : Nat) (acc : List α),
      (List.range n).foldlM (fun a i => (f i).map (a ++ ·)) acc
        = .ok (acc ++ (List.range n).flatMap g) := by
  intro n
  induction n with
  | zero =>
    intro acc
    show Except.ok acc = _
    simp
  | succ n ih =>
    intro acc
    rw [List.range_succ,
        foldlM_except_append _ _ _ _ _ (ih acc),
        List.foldlM_cons, hf n]
    show Except.ok ((acc ++ (List.range n).flatMap g) ++ g n) = _
    rw [List.flatMap_append]
    simp [List.append_assoc]

theorem flatMap_single {α β : Type} (l : List α) (h : α → β) :
    l.flatMap (fun i => [h i]) = l.map h := by
  induction l with
  | nil => rfl
  | cons a rest ih => simp [ih]

/-- The derived script filename of chunk `chunk`:
`self.sh_filename.replace('.sh', '-{chunk}.sh')` over the defaulted
`sh_filename` (source: `submitter.py` lines 106-107 and 138). -/
def chunkSh (sh : Option Line) (job_name : Line) (chunk : Nat) : Line :=
  replaceList ".sh".toList ("-".toList ++ natLine chunk ++ ".sh".toList)
    (sh.getD (job_name ++ ".sh".toList))

/-- The derived stdout filename of chunk `chunk` (source: line 139). -/
def chunkOut (out sh : Option Line) (job_name : Line) (chunk : Nat) : Line :=
  replaceList ".sh".toList ("-".toList ++ natLine chunk ++ ".sh".toList)
    (out.getD (sh.getD (job_name ++ ".sh".toList) ++ ".out".toList))

/-- The derived stderr filename of chunk `chunk` (source: line 140). -/
def chunkErr (err sh : Option Line) (job_name : Line) (chunk : Nat) : Line :=
  replaceList ".sh".toList ("-".toList ++ natLine chunk ++ ".sh".toList)
    (err.getD (sh.getD (job_name ++ ".sh".toList) ++ ".err".toList))

/-- The sub-specification the chunk loop constructs for chunk `chunk`
(source: `submitter.py` lines 132-146): the contiguous slice
`commands[chunk*cs : (chunk+1)*cs]`, the job name with the 0-based chunk
index appended, derived filenames, and the parent's resolved queue type and
array values. -/
def chunkState (commands : List Line) (job_name : Line) (qt : Option String)
    (sh : Option Line) (array : Option Bool) (nodes ppn : Nat)
    (walltime queue account : Line) (out err : Option Line)
    (mr : Option Nat) (hostname : Line) (cs chunk : Nat) : Submitter :=
  mkState ((commands.drop (chunk * cs)).take cs)
    (job_name ++ natLine chunk) (resolve_queue_type qt hostname)
    (some (chunkSh sh job_name chunk)) (resolve_array array hostname)
    nodes ppn walltime queue account
    (some (chunkOut out sh job_name chunk))
    (some (chunkErr err sh job_name chunk)) mr hostname

/-- C6 (amended): for every command list, a positive chunk size that is at
most 500 (or array mode off), and a passing `ppn` check, the constructor
produces exactly one rendered file per chunk — chunk `i` holding the
contiguous slice `commands[i*cs:(i+1)*cs]`, with the 0-based chunk index
appended to the job name and to the script/out/err filenames — and the
chunks concatenate back to the original command list (contiguous partition,
last chunk possibly shorter); no sub-specification re-enters the 500-limit
array recursion.  (As stated the claim is false: for a chunk size above 500
with array mode on, an oversized chunk's own `job()` does take the 500-limit
array branch, which raises `TypeError`.) -/
theorem claimC6 (commands : List Line) (job_name : Line) (qt : Option String)
    (sh : Option Line) (array : Option Bool) (nodes ppn : Nat)
    (walltime queue account : Line) (out err : Option Line)
    (mr : Option Nat) (cs : Nat) (hostname : Line)
    (hcs : 0 < cs)
    (hlim : cs ≤ MAX_ARRAY_JOBS ∨ truthy (resolve_array array hostname) = false)
    (hppn : ¬(resolve_queue_type qt hostname = some "PBS" ∧ 16 < ppn)) :
    init commands job_name qt sh array nodes ppn walltime queue account out
        err mr (some cs) hostname
      = .ok ((List.range (numChunks commands.length cs)).map (fun chunk =>
          ⟨chunkSh sh job_name chunk,
           renderScript (chunkState commands job_name qt sh array nodes ppn
             walltime queue account out err mr hostname cs chunk)⟩))
      ∧ ((List.range (numChunks commands.length cs)).map
          (fun i => (commands.drop (i * cs)).take cs)).flatten = commands := by
  have hf : ∀ i, (chunkState commands job_name qt sh array nodes ppn walltime
      queue account out err mr hostname cs i).job
      = .ok [⟨chunkSh sh job_name i,
          renderScript (chunkState commands job_name qt sh array nodes ppn
            walltime queue account out err mr hostname cs i)⟩] := by
    intro i
    have hcl : (chunkState commands job_name qt sh array nodes ppn walltime
        queue account out err mr hostname cs i).commands.length ≤ cs := by
      show ((commands.drop (i * cs)).take cs).length ≤ cs
      rw [List.length_take]
      exact Nat.min_le_left _ _
    have harr : (chunkState commands job_name qt sh array nodes ppn walltime
        queue account out err mr hostname cs i).arr
        = truthy (resolve_array array hostname) := by
      show truthy (resolve_array (resolve_array array hostname) hostname) = _
      rw [resolve_array_idem]
    rw [Submitter.job, if_neg]
    · rfl
    · intro hc
      rcases hlim with hlim | hlim
      · have hmax : (MAX_ARRAY_JOBS : Nat) = 500 := rfl
        have := hc.1
        rw [hmax] at this hlim
        omega
      · rw [harr, hlim] at hc
        exact absurd hc.2 (by simp)
  constructor
  · show (if resolve_queue_type qt hostname = some "PBS" ∧ 16 < ppn
        then (Except.error PyError.valueError : Except PyError (List SFile))
        else if cs = 0 then Except.error PyError.zeroDivisionError
        else (List.range (numChunks commands.length cs)).foldlM
          (fun acc chunk =>
            ((chunkState commands job_name qt sh array nodes ppn walltime
              queue account out err mr hostname cs chunk).job).map
              (fun fs => acc ++ fs)) [])
      = _
    rw [if_neg hppn, if_neg (by omega : ¬cs = 0)]
    refine (foldlM_range_ok _ (fun chunk => [⟨chunkSh sh job_name chunk,
      renderScript (chunkState commands job_name qt sh array nodes ppn
        walltime queue account out err mr hostname cs chunk)⟩]) hf
      (numChunks commands.length cs) []).trans ?_
    rw [List.nil_append, flatMap_single]
  · exact chunks_flatten cs hcs commands

/-- C6 counterexample: with chunk size 501 and array mode on, the single
501-command chunk re-enters the 500-limit array recursion inside its own
`job()` — observable as the `TypeError` that branch raises — contradicting
the claim that the recursion applies inside no sub-specification for every
supplied chunk size. -/
theorem claimC6_counterexample :
    init (List.replicate 501 "echo hi".toList) "j".toList (some "PBS") none
      (some true) 1 1 "0:30:00".toList "home".toList "yeo-group".toList
      none none none (some 501) "h".toList = .error .typeError := by
  set_option maxRecDepth 1000000 in rfl

/-- C6 witness: three commands with chunk size two give two chunk files and
the slices rebuild the command list. -/
theorem claimC6_witness :
    init ["a".toList, "b".toList, "c".toList] "j".toList (some "PBS") none
        (some false) 1 1 "w".toList "home".toList "acc".toList none none
        none (some 2) "h".toList
      = .ok ((List.range (numChunks (["a".toList, "b".toList,
          "c".toList] : List Line).length 2)).map (fun chunk =>
          ⟨chunkSh none "j".toList chunk,
           renderScript (chunkState ["a".toList, "b".toList, "c".toList]
             "j".toList (some "PBS") none (some false) 1 1 "w".toList
             "home".toList "acc".toList none none none "h".toList 2 chunk)⟩))
      ∧ ((List.range (numChunks (["a".toList, "b".toList,
          "c".toList] : List Line).length 2)).map
          (fun i => ((["a".toList, "b".toList, "c".toList] :
            List Line).drop (i * 2)).take 2)).flatten
        = ["a".toList, "b".toList, "c".toList] :=
  claimC6 ["a".toList, "b".toList, "c".toList] "j".toList (some "PBS") none
    (some false) 1 1 "w".toList "home".toList "acc".toList none none none 2
    "h".toList (by omega) (Or.inr rfl) (by simp)

end QTools
